import Mathlib

/-!
Shallow embedding of the WAV decoder `read_wav` from
`src/app/src/main/cpp/audio_converter.cpp`, together with theorems checking
the natural-language specification of the decoder against this embedding.

Modelling choices:
* a file is a `List Nat` of byte values (an `isBytes` predicate records that
  each entry is below 256); `Option` models whether `fopen` succeeds;
* the two C out-parameters `std::vector<float>& pcm_data` and
  `int& sample_rate` are threaded explicitly as an `OutState` record;
  samples are embedded as rationals (`ℚ`): the 16-bit arithmetic
  `s / 32768.0f` and the pair average `(a + b) / 2.0f` over 16-bit inputs
  are exact in float32 (at most 17 significand bits are needed), while the
  32-bit branch first performs `static_cast<float>(samples[i])`, which
  rounds to float32's 24-bit significand — modelled by `castF32`
  (round-to-nearest, ties-to-even) — before the exact division by `2^31`;
* the result of a call records which `return` statement fired: `ok` for
  `return true`, `err e` for each distinct `return false` site (tagged by
  the log message of that site), and `ub` for the one C++ undefined
  behaviour in the function: `header.data_size / (header.bits_per_sample / 8)`
  divides by zero whenever `bits_per_sample < 8` (line 62 runs before the
  bit-depth check of lines 66/78/90);
* each result also records whether `fclose` ran before the `return`.
-/

namespace HyperWhisper

/-- Little-endian unsigned 16-bit value assembled from two consecutive bytes,
as `fread` fills a `uint16_t` field on a little-endian target. -/
def u16le (bs : List Nat) (off : Nat) : Nat :=
  bs.getD off 0 + 256 * bs.getD (off + 1) 0

/-- Little-endian unsigned 32-bit value assembled from four consecutive bytes. -/
def u32le (bs : List Nat) (off : Nat) : Nat :=
  bs.getD off 0 + 256 * bs.getD (off + 1) 0 + 65536 * bs.getD (off + 2) 0 +
    16777216 * bs.getD (off + 3) 0

/-- Reinterpret a 16-bit unsigned value as the two's-complement `int16_t`
stored in the `samples` buffer of the 16-bit branch. -/
def int16ofBits (v : Nat) : Int :=
  if v < 32768 then (v : Int) else (v : Int) - 65536

/-- Reinterpret a 32-bit unsigned value as a two's-complement `int32_t`. -/
def int32ofBits (v : Nat) : Int :=
  if v < 2147483648 then (v : Int) else (v : Int) - 4294967296

/-- The C conversion `int = uint32_t` used by `sample_rate = header.sample_rate`
(line 59): values up to `2^31 - 1` are preserved, larger ones wrap modulo
`2^32` into the negative range. -/
def int32ofUInt (v : Nat) : Int :=
  if v < 2147483648 then (v : Int) else (v : Int) - 4294967296

/-- Every entry of the list is a byte value. -/
def isBytes (bs : List Nat) : Prop := ∀ b ∈ bs, b < 256

instance (bs : List Nat) : Decidable (isBytes bs) := by
  unfold isBytes; infer_instance

/-- The check `header.riff == "RIFF"` (bytes 0-3 of the 44-byte header record). -/
def riffOk (bs : List Nat) : Prop := bs.take 4 = [82, 73, 70, 70]

instance (bs : List Nat) : Decidable (riffOk bs) := by
  unfold riffOk; infer_instance

/-- The check `header.wave == "WAVE"` (bytes 8-11 of the 44-byte header record). -/
def waveOk (bs : List Nat) : Prop := (bs.drop 8).take 4 = [87, 65, 86, 69]

instance (bs : List Nat) : Decidable (waveOk bs) := by
  unfold waveOk; infer_instance

/-- Field `header.num_channels`: `uint16_t` at byte offset 22 of the header. -/
def numChannels (bs : List Nat) : Nat := u16le bs 22

/-- Field `header.sample_rate`: `uint32_t` at byte offset 24 of the header. -/
def sampleRateField (bs : List Nat) : Nat := u32le bs 24

/-- Field `header.bits_per_sample`: `uint16_t` at byte offset 34 of the header. -/
def bitsPerSample (bs : List Nat) : Nat := u16le bs 34

/-- Field `header.data_size`: `uint32_t` at byte offset 40 of the header. -/
def dataSize (bs : List Nat) : Nat := u32le bs 40

/-- Quantity `num_samples = header.data_size / (header.bits_per_sample / 8)` (line 62),
meaningful only when `bitsPerSample bs / 8` is nonzero. -/
def numSamples (bs : List Nat) : Nat := dataSize bs / (bitsPerSample bs / 8)

/-- Model of `std::vector::resize`: keep the first `n` elements, pad with
value-initialised (`0`) elements up to length `n`. -/
def resize (xs : List ℚ) (n : Nat) : List ℚ :=
  xs.take n ++ List.replicate (n - xs.length) 0

/-- Normalization `samples[i] / 32768.0f` of the 16-bit branch (line 76), in exact
rational arithmetic. -/
def normalize16 (s : Int) : ℚ := (s : ℚ) / 32768

/-- Round-to-nearest, ties-to-even, of a magnitude to a multiple of `2^e`:
the rounding IEEE-754 binary32 applies when a value needs more significand
bits than the format holds. -/
def roundNearestEven (n e : Nat) : Nat :=
  if e = 0 then n
  else if n % 2^e < 2^e / 2 then n / 2^e * 2^e
  else if 2^e / 2 < n % 2^e then (n / 2^e + 1) * 2^e
  else if (n / 2^e) % 2 = 0 then n / 2^e * 2^e
  else (n / 2^e + 1) * 2^e

/-- For a magnitude `n` with `2^24 ≤ n ≤ 2^31`, the number of low bits the
24-bit float32 significand cannot hold, i.e. the `e` with
`2^(23+e) ≤ n < 2^(24+e)`; only this range is used by `castF32` on
`int32_t` inputs. -/
def sigExp (n : Nat) : Nat :=
  if n < 33554432 then 1
  else if n < 67108864 then 2
  else if n < 134217728 then 3
  else if n < 268435456 then 4
  else if n < 536870912 then 5
  else if n < 1073741824 then 6
  else if n < 2147483648 then 7
  else 8

/-- Magnitude of `static_cast<float>` on an `int32_t`: magnitudes below
`2^24` are exactly representable, larger ones round to the 24-bit
significand, nearest-even. -/
def castMag (n : Nat) : Nat :=
  if n < 16777216 then n else roundNearestEven n (sigExp n)

/-- Model of `static_cast<float>(samples[i])` on `int32_t` values: the
result of the cast is an integer (every float32 of this magnitude is),
obtained by rounding the magnitude to 24 significant bits. In particular
`castF32 2147483647 = 2147483648`: the `int32_t` maximum rounds up. -/
def castF32 (v : Int) : Int :=
  if v < 0 then -(castMag v.natAbs : Int) else (castMag v.natAbs : Int)

/-- Normalization `static_cast<float>(samples[i]) / 2147483648.0f` of the
32-bit branch (line 88): the cast rounds the integer to float32's 24-bit
significand (`castF32`); the division by the power of two `2^31` is then
exact in float32 over the `int32_t` range, so the produced value equals
`castF32 s / 2^31` as a rational. -/
def normalize32 (s : Int) : ℚ := (castF32 s : ℚ) / 2147483648

/-- The normalized sample sequence the 16-bit branch stores into `pcm_data`
(lines 67-77): `n` signed 16-bit little-endian integers read from the start
of the payload, each divided by 32768. -/
def samples16 (payload : List Nat) (n : Nat) : List ℚ :=
  (List.range n).map fun i => normalize16 (int16ofBits (u16le payload (2 * i)))

/-- The normalized sample sequence the 32-bit branch stores into `pcm_data`
(lines 79-89): `n` signed 32-bit little-endian integers read from the start
of the payload, each divided by 2147483648. -/
def samples32 (payload : List Nat) (n : Nat) : List ℚ :=
  (List.range n).map fun i => normalize32 (int32ofBits (u32le payload (4 * i)))

/-- Stereo-to-mono conversion (lines 97-104): when `channels = 2`, element
`i` of the new sequence is the average of elements `2i` and `2i+1`; any
other channel count leaves the sequence untouched. -/
def downmix (channels : Nat) (pcm : List ℚ) : List ℚ :=
  if channels = 2 then
    (List.range (pcm.length / 2)).map fun i =>
      (pcm.getD (2 * i) 0 + pcm.getD (2 * i + 1) 0) / 2
  else pcm

/-- The caller-visible out-parameters of `read_wav`:
`std::vector<float>& pcm_data` and `int& sample_rate`. -/
structure OutState where
  pcm_data : List ℚ
  sample_rate : Int
deriving DecidableEq

/-- The distinct `return false` sites of `read_wav`, tagged by the failure
each one logs. -/
inductive DecodeErr where
  | openError
  | truncatedHeader
  | invalidFormat
  | truncatedPayload
  | unsupportedBitDepth (bits : Nat)
deriving DecidableEq

/-- Outcome of a `read_wav` call: the boolean result together with the final
out-parameter state and whether `fclose` ran on that path, or `ub` for the
division-by-zero undefined behaviour of line 62. -/
inductive RWResult where
  | ub (st : OutState)
  | err (e : DecodeErr) (closed : Bool) (st : OutState)
  | ok (closed : Bool) (st : OutState)
deriving DecidableEq

/-- Lines 61-108 of `read_wav`: everything after the magic-tag validation,
with `st1` the out-state after `sample_rate = header.sample_rate` (line 59). -/
def decodePayload (bytes : List Nat) (st1 : OutState) : RWResult :=
  let bits := bitsPerSample bytes
  if bits / 8 = 0 then .ub st1
  else
    let n := dataSize bytes / (bits / 8)
    let st2 : OutState := ⟨resize st1.pcm_data n, st1.sample_rate⟩
    let payload := bytes.drop 44
    if bits = 16 then
      if payload.length / 2 < n then .err .truncatedPayload true st2
      else .ok true ⟨downmix (numChannels bytes) (samples16 payload n), st1.sample_rate⟩
    else if bits = 32 then
      if payload.length / 4 < n then .err .truncatedPayload true st2
      else .ok true ⟨downmix (numChannels bytes) (samples32 payload n), st1.sample_rate⟩
    else .err (.unsupportedBitDepth bits) true st2

/-- Function `read_wav` (lines 32-109): `file = none` models a failing `fopen`;
`file = some bytes` models a file whose content is `bytes`. `st` is the
state of the caller's out-parameters at the call. -/
def read_wav (file : Option (List Nat)) (st : OutState) : RWResult :=
  match file with
  | none => .err .openError false st
  | some bytes =>
    if bytes.length < 44 then .err .truncatedHeader true st
    else if riffOk bytes ∧ waveOk bytes then
      decodePayload bytes ⟨st.pcm_data, int32ofUInt (sampleRateField bytes)⟩
    else .err .invalidFormat true st

/-- The interleaved normalized sample sequence `pcm_data` holds just before
the downmix step, dispatched on the declared bit depth. -/
def interleaved (bytes : List Nat) : List ℚ :=
  if bitsPerSample bytes = 16 then samples16 (bytes.drop 44) (numSamples bytes)
  else samples32 (bytes.drop 44) (numSamples bytes)

/-- Serialize a value as two little-endian bytes (for building test files). -/
def u16bytes (v : Nat) : List Nat := [v % 256, v / 256 % 256]

/-- Serialize a value as four little-endian bytes (for building test files). -/
def u32bytes (v : Nat) : List Nat :=
  [v % 256, v / 256 % 256, v / 65536 % 256, v / 16777216 % 256]

/-- A canonical 44-byte WAV header with the given channel count, sample
rate, bit depth and payload size. -/
def mkHeader (channels rate bits dsize : Nat) : List Nat :=
  [82, 73, 70, 70] ++ u32bytes (36 + dsize) ++ [87, 65, 86, 69] ++
    [102, 109, 116, 32] ++ u32bytes 16 ++ u16bytes 1 ++ u16bytes channels ++
    u32bytes rate ++ u32bytes (rate * channels * (bits / 8)) ++
    u16bytes (channels * (bits / 8)) ++ u16bytes bits ++
    [100, 97, 116, 97] ++ u32bytes dsize

/-- A file with a valid header that declares `bits_per_sample = 8` and a
4-byte payload. -/
def file8Bit : List Nat := mkHeader 1 16000 8 4 ++ [1, 2, 3, 4]

/-- A file with a valid header that declares `bits_per_sample = 0`. -/
def file0Bit : List Nat := mkHeader 1 16000 0 4 ++ [1, 2, 3, 4]

/-- A 16-bit mono file whose header declares 4 samples (`data_size = 8`)
but whose payload holds only 2 bytes. -/
def truncatedFile : List Nat := mkHeader 1 16000 16 8 ++ [0, 64]

/-- A 16-bit mono file with an empty payload (`subchunk2_size = 0`). -/
def emptyPayloadFile : List Nat := mkHeader 1 16000 16 0

/-- A 16-bit mono file with an empty payload whose sample-rate field holds
`2^31`, exceeding the range of the `int` out-parameter. -/
def hugeRateFile : List Nat := mkHeader 1 2147483648 16 0

/-- A 16-bit mono file with the two samples 16384 and -16384. -/
def monoFile : List Nat := mkHeader 1 16000 16 4 ++ [0, 64, 0, 192]

/-- A 44-byte file identical to a valid header except that its first four
bytes read RIFX instead of RIFF. -/
def rifxFile : List Nat := [82, 73, 70, 88] ++ (mkHeader 1 16000 16 0).drop 4

/-- A 32-bit mono file whose single sample is the 32-bit integer maximum
2147483647 (payload bytes FF FF FF 7F). -/
def int32MaxFile : List Nat := mkHeader 1 16000 32 4 ++ [255, 255, 255, 127]

/-! ## Control-flow inversion lemmas -/

theorem read_wav_none (st : OutState) :
    read_wav none st = .err .openError false st := rfl

theorem read_wav_shortHeader (bytes : List Nat) (st : OutState)
    (h : bytes.length < 44) :
    read_wav (some bytes) st = .err .truncatedHeader true st := by
  simp [read_wav, h]

theorem read_wav_badTags (bytes : List Nat) (st : OutState)
    (h : ¬ bytes.length < 44) (htag : ¬ (riffOk bytes ∧ waveOk bytes)) :
    read_wav (some bytes) st = .err .invalidFormat true st := by
  simp [read_wav, h, htag]

theorem read_wav_goodTags (bytes : List Nat) (st : OutState)
    (h : ¬ bytes.length < 44) (htag : riffOk bytes ∧ waveOk bytes) :
    read_wav (some bytes) st =
      decodePayload bytes ⟨st.pcm_data, int32ofUInt (sampleRateField bytes)⟩ := by
  simp [read_wav, h, htag]

theorem decodePayload_ub (bytes : List Nat) (st1 : OutState)
    (h : bitsPerSample bytes / 8 = 0) :
    decodePayload bytes st1 = .ub st1 := by
  simp [decodePayload, h]

theorem decodePayload_16_short (bytes : List Nat) (st1 : OutState)
    (hb : bitsPerSample bytes = 16)
    (hs : (bytes.drop 44).length / 2 < numSamples bytes) :
    decodePayload bytes st1 =
      .err .truncatedPayload true ⟨resize st1.pcm_data (numSamples bytes), st1.sample_rate⟩ := by
  have hs2 : (bytes.length - 44) / 2 < dataSize bytes / 2 := by
    simpa [numSamples, hb] using hs
  simp [decodePayload, hb, numSamples, hs2]

theorem decodePayload_16_ok (bytes : List Nat) (st1 : OutState)
    (hb : bitsPerSample bytes = 16)
    (hs : ¬ (bytes.drop 44).length / 2 < numSamples bytes) :
    decodePayload bytes st1 =
      .ok true ⟨downmix (numChannels bytes) (samples16 (bytes.drop 44) (numSamples bytes)),
        st1.sample_rate⟩ := by
  have hs2 : dataSize bytes / 2 ≤ (bytes.length - 44) / 2 := by
    have := le_of_not_lt hs
    simpa [numSamples, hb] using this
  simp [decodePayload, hb, numSamples, hs2]

theorem decodePayload_32_short (bytes : List Nat) (st1 : OutState)
    (hb : bitsPerSample bytes = 32)
    (hs : (bytes.drop 44).length / 4 < numSamples bytes) :
    decodePayload bytes st1 =
      .err .truncatedPayload true ⟨resize st1.pcm_data (numSamples bytes), st1.sample_rate⟩ := by
  have hs2 : (bytes.length - 44) / 4 < dataSize bytes / 4 := by
    simpa [numSamples, hb] using hs
  simp [decodePayload, hb, numSamples, hs2]

theorem decodePayload_32_ok (bytes : List Nat) (st1 : OutState)
    (hb : bitsPerSample bytes = 32)
    (hs : ¬ (bytes.drop 44).length / 4 < numSamples bytes) :
    decodePayload bytes st1 =
      .ok true ⟨downmix (numChannels bytes) (samples32 (bytes.drop 44) (numSamples bytes)),
        st1.sample_rate⟩ := by
  have hs2 : dataSize bytes / 4 ≤ (bytes.length - 44) / 4 := by
    have := le_of_not_lt hs
    simpa [numSamples, hb] using this
  simp [decodePayload, hb, numSamples, hs2]

theorem decodePayload_unsupported (bytes : List Nat) (st1 : OutState)
    (h8 : bitsPerSample bytes / 8 ≠ 0)
    (h16 : bitsPerSample bytes ≠ 16) (h32 : bitsPerSample bytes ≠ 32) :
    decodePayload bytes st1 =
      .err (.unsupportedBitDepth (bitsPerSample bytes)) true
        ⟨resize st1.pcm_data (numSamples bytes), st1.sample_rate⟩ := by
  simp [decodePayload, h8, h16, h32, numSamples]

/-- Inversion of the success path: a `true` result can only come out of the
16-bit or 32-bit branch, after the length, tag and payload checks passed. -/
theorem read_wav_ok_inv (bytes : List Nat) (st : OutState) (c : Bool) (st' : OutState)
    (h : read_wav (some bytes) st = .ok c st') :
    44 ≤ bytes.length ∧ riffOk bytes ∧ waveOk bytes ∧ c = true ∧
    (bitsPerSample bytes = 16 ∨ bitsPerSample bytes = 32) ∧
    (bytes.drop 44).length / (bitsPerSample bytes / 8) ≥ numSamples bytes ∧
    st' = ⟨downmix (numChannels bytes) (interleaved bytes),
      int32ofUInt (sampleRateField bytes)⟩ := by
  by_cases hlen : bytes.length < 44
  · rw [read_wav_shortHeader bytes st hlen] at h; cases h
  by_cases htag : riffOk bytes ∧ waveOk bytes
  · rw [read_wav_goodTags bytes st hlen htag] at h
    by_cases h8 : bitsPerSample bytes / 8 = 0
    · rw [decodePayload_ub _ _ h8] at h; cases h
    by_cases h16 : bitsPerSample bytes = 16
    · by_cases hs : (bytes.drop 44).length / 2 < numSamples bytes
      · rw [decodePayload_16_short _ _ h16 hs] at h; cases h
      · rw [decodePayload_16_ok _ _ h16 hs] at h
        cases h
        refine ⟨le_of_not_lt hlen, htag.1, htag.2, rfl, Or.inl h16, ?_, ?_⟩
        · rw [h16]; exact le_of_not_lt hs
        · simp [interleaved, h16]
    by_cases h32 : bitsPerSample bytes = 32
    · by_cases hs : (bytes.drop 44).length / 4 < numSamples bytes
      · rw [decodePayload_32_short _ _ h32 hs] at h; cases h
      · rw [decodePayload_32_ok _ _ h32 hs] at h
        cases h
        refine ⟨le_of_not_lt hlen, htag.1, htag.2, rfl, Or.inr h32, ?_, ?_⟩
        · rw [h32]; exact le_of_not_lt hs
        · simp [interleaved, h16, h32]
    · rw [decodePayload_unsupported _ _ h8 h16 h32] at h; cases h
  · rw [read_wav_badTags bytes st hlen htag] at h; cases h

/-- Inversion of the undefined-behaviour outcome: line 62 divides by zero
exactly when the header passed the tag checks and declares a bit depth
below 8; at that point `sample_rate` is already assigned but `pcm_data` is
not yet resized. -/
theorem read_wav_ub_inv (bytes : List Nat) (st : OutState) (st' : OutState)
    (h : read_wav (some bytes) st = .ub st') :
    44 ≤ bytes.length ∧ riffOk bytes ∧ waveOk bytes ∧ bitsPerSample bytes < 8 ∧
    st' = ⟨st.pcm_data, int32ofUInt (sampleRateField bytes)⟩ := by
  by_cases hlen : bytes.length < 44
  · rw [read_wav_shortHeader bytes st hlen] at h; cases h
  by_cases htag : riffOk bytes ∧ waveOk bytes
  · rw [read_wav_goodTags bytes st hlen htag] at h
    by_cases h8 : bitsPerSample bytes / 8 = 0
    · rw [decodePayload_ub _ _ h8] at h
      cases h
      exact ⟨le_of_not_lt hlen, htag.1, htag.2, by omega, rfl⟩
    by_cases h16 : bitsPerSample bytes = 16
    · by_cases hs : (bytes.drop 44).length / 2 < numSamples bytes
      · rw [decodePayload_16_short _ _ h16 hs] at h; cases h
      · rw [decodePayload_16_ok _ _ h16 hs] at h; cases h
    by_cases h32 : bitsPerSample bytes = 32
    · by_cases hs : (bytes.drop 44).length / 4 < numSamples bytes
      · rw [decodePayload_32_short _ _ h32 hs] at h; cases h
      · rw [decodePayload_32_ok _ _ h32 hs] at h; cases h
    · rw [decodePayload_unsupported _ _ h8 h16 h32] at h; cases h
  · rw [read_wav_badTags bytes st hlen htag] at h; cases h

/-- Inversion of the `return false` sites of `read_wav` after a successful
open: which error fired, what the out-state holds on that path, and that
`fclose` ran. -/
theorem read_wav_err_inv (bytes : List Nat) (st : OutState) (e : DecodeErr)
    (c : Bool) (st' : OutState)
    (h : read_wav (some bytes) st = .err e c st') :
    c = true ∧
    ((bytes.length < 44 ∧ e = .truncatedHeader ∧ st' = st) ∨
     (44 ≤ bytes.length ∧ ¬ (riffOk bytes ∧ waveOk bytes) ∧
       e = .invalidFormat ∧ st' = st) ∨
     (44 ≤ bytes.length ∧ riffOk bytes ∧ waveOk bytes ∧
       st' = ⟨resize st.pcm_data (numSamples bytes),
         int32ofUInt (sampleRateField bytes)⟩ ∧
       ((e = .truncatedPayload ∧
          (bitsPerSample bytes = 16 ∨ bitsPerSample bytes = 32) ∧
          (bytes.drop 44).length / (bitsPerSample bytes / 8) < numSamples bytes) ∨
        (e = .unsupportedBitDepth (bitsPerSample bytes) ∧
          8 ≤ bitsPerSample bytes ∧
          bitsPerSample bytes ≠ 16 ∧ bitsPerSample bytes ≠ 32)))) := by
  by_cases hlen : bytes.length < 44
  · rw [read_wav_shortHeader bytes st hlen] at h
    cases h
    exact ⟨rfl, Or.inl ⟨hlen, rfl, rfl⟩⟩
  by_cases htag : riffOk bytes ∧ waveOk bytes
  · rw [read_wav_goodTags bytes st hlen htag] at h
    by_cases h8 : bitsPerSample bytes / 8 = 0
    · rw [decodePayload_ub _ _ h8] at h; cases h
    by_cases h16 : bitsPerSample bytes = 16
    · by_cases hs : (bytes.drop 44).length / 2 < numSamples bytes
      · rw [decodePayload_16_short _ _ h16 hs] at h
        cases h
        refine ⟨rfl, Or.inr (Or.inr ⟨le_of_not_lt hlen, htag.1, htag.2, rfl,
          Or.inl ⟨rfl, Or.inl h16, ?_⟩⟩)⟩
        rw [h16]; exact hs
      · rw [decodePayload_16_ok _ _ h16 hs] at h; cases h
    by_cases h32 : bitsPerSample bytes = 32
    · by_cases hs : (bytes.drop 44).length / 4 < numSamples bytes
      · rw [decodePayload_32_short _ _ h32 hs] at h
        cases h
        refine ⟨rfl, Or.inr (Or.inr ⟨le_of_not_lt hlen, htag.1, htag.2, rfl,
          Or.inl ⟨rfl, Or.inr h32, ?_⟩⟩)⟩
        rw [h32]; exact hs
      · rw [decodePayload_32_ok _ _ h32 hs] at h; cases h
    · rw [decodePayload_unsupported _ _ h8 h16 h32] at h
      cases h
      exact ⟨rfl, Or.inr (Or.inr ⟨le_of_not_lt hlen, htag.1, htag.2, rfl,
        Or.inr ⟨rfl, by omega, h16, h32⟩⟩)⟩
  · rw [read_wav_badTags bytes st hlen htag] at h
    cases h
    exact ⟨rfl, Or.inr (Or.inl ⟨le_of_not_lt hlen, htag, rfl, rfl⟩)⟩

/-! ## Bounds on decoded samples -/

theorem getD_lt_of_isBytes (bs : List Nat) (h : isBytes bs) (i : Nat) :
    bs.getD i 0 < 256 := by
  induction bs generalizing i with
  | nil => simp [List.getD]
  | cons b tl ih =>
    cases i with
    | zero => simpa using h b (List.mem_cons_self b tl)
    | succ j => simpa using ih (fun x hx => h x (List.mem_cons_of_mem b hx)) j

theorem u16le_lt (bs : List Nat) (h : isBytes bs) (off : Nat) :
    u16le bs off < 65536 := by
  have h0 := getD_lt_of_isBytes bs h off
  have h1 := getD_lt_of_isBytes bs h (off + 1)
  unfold u16le
  omega

theorem u32le_lt (bs : List Nat) (h : isBytes bs) (off : Nat) :
    u32le bs off < 4294967296 := by
  have h0 := getD_lt_of_isBytes bs h off
  have h1 := getD_lt_of_isBytes bs h (off + 1)
  have h2 := getD_lt_of_isBytes bs h (off + 2)
  have h3 := getD_lt_of_isBytes bs h (off + 3)
  unfold u32le
  omega

theorem int16ofBits_bounds (v : Nat) (hv : v < 65536) :
    -32768 ≤ int16ofBits v ∧ int16ofBits v ≤ 32767 := by
  unfold int16ofBits
  split <;> omega

theorem int32ofBits_bounds (v : Nat) (hv : v < 4294967296) :
    -2147483648 ≤ int32ofBits v ∧ int32ofBits v ≤ 2147483647 := by
  unfold int32ofBits
  split <;> omega

theorem normalize16_bounds (s : Int) (h1 : -32768 ≤ s) (h2 : s ≤ 32767) :
    -1 ≤ normalize16 s ∧ normalize16 s ≤ 1 := by
  unfold normalize16
  have hq1 : (-32768 : ℚ) ≤ (s : ℚ) := by exact_mod_cast h1
  have hq2 : (s : ℚ) ≤ 32767 := by exact_mod_cast h2
  constructor
  · rw [le_div_iff₀ (by norm_num : (0 : ℚ) < 32768)]
    linarith
  · rw [div_le_one (by norm_num : (0 : ℚ) < 32768)]
    linarith

theorem sigExp_le (n : Nat) : sigExp n ≤ 8 := by
  unfold sigExp
  repeat' split
  all_goals norm_num

theorem roundNearestEven_le (n e M : Nat) (hM : 2^e ∣ M) (h : n ≤ M) :
    roundNearestEven n e ≤ M := by
  unfold roundNearestEven
  split
  · exact h
  rename_i he
  obtain ⟨k, hk⟩ := hM
  have hp2 : 2 ≤ 2^e := by
    have h1 : (2 : Nat)^1 ≤ 2^e := Nat.pow_le_pow_right (by norm_num) (by omega)
    simpa using h1
  have hql : n / 2^e * 2^e ≤ n := Nat.div_mul_le_self n (2^e)
  have hqk : n / 2^e ≤ k := by
    have hd : n / 2^e ≤ M / 2^e := Nat.div_le_div_right h
    rwa [hk, Nat.mul_div_cancel_left k (by positivity : 0 < 2^e)] at hd
  have hMmod : M % 2^e = 0 := by
    rw [hk]; exact Nat.mul_mod_right (2^e) k
  have key : n % 2^e ≠ 0 → (n / 2^e + 1) * 2^e ≤ M := by
    intro hr0
    have hqk2 : n / 2^e + 1 ≤ k := by
      by_contra hc
      have hq_eq : n / 2^e = k := by omega
      have hMn : M ≤ n := by
        calc M = 2^e * k := hk
        _ = n / 2^e * 2^e := by rw [hq_eq, Nat.mul_comm]
        _ ≤ n := hql
      have hnM : n = M := le_antisymm h hMn
      exact hr0 (by rw [hnM, hMmod])
    calc (n / 2^e + 1) * 2^e ≤ k * 2^e := Nat.mul_le_mul_right _ hqk2
    _ = M := by rw [hk, Nat.mul_comm]
  have hhalf : 1 ≤ 2^e / 2 := (Nat.one_le_div_iff (by omega)).mpr hp2
  split
  · exact le_trans hql h
  split
  · rename_i hr1 hr2
    exact key (by omega)
  split
  · exact le_trans hql h
  · rename_i hr1 hr2 hq
    exact key (by omega)

theorem castMag_le (n : Nat) (h : n ≤ 2147483648) : castMag n ≤ 2147483648 := by
  unfold castMag
  split
  · exact h
  · refine roundNearestEven_le n (sigExp n) 2147483648 ?_ h
    have hd : (2 : Nat)^(sigExp n) ∣ 2^31 :=
      pow_dvd_pow 2 (le_trans (sigExp_le n) (by norm_num))
    simpa using hd

theorem castF32_bounds (v : Int) (h1 : -2147483648 ≤ v) (h2 : v ≤ 2147483647) :
    -2147483648 ≤ castF32 v ∧ castF32 v ≤ 2147483648 := by
  have hm : castMag v.natAbs ≤ 2147483648 := castMag_le _ (by omega)
  unfold castF32
  split <;> omega

theorem normalize32_bounds (s : Int) (h1 : -2147483648 ≤ s) (h2 : s ≤ 2147483647) :
    -1 ≤ normalize32 s ∧ normalize32 s ≤ 1 := by
  obtain ⟨hc1, hc2⟩ := castF32_bounds s h1 h2
  unfold normalize32
  have hq1 : (-2147483648 : ℚ) ≤ (castF32 s : ℚ) := by exact_mod_cast hc1
  have hq2 : (castF32 s : ℚ) ≤ 2147483648 := by exact_mod_cast hc2
  constructor
  · rw [le_div_iff₀ (by norm_num : (0 : ℚ) < 2147483648)]
    linarith
  · rw [div_le_one (by norm_num : (0 : ℚ) < 2147483648)]
    linarith

theorem samples16_bounds (payload : List Nat) (n : Nat) (h : isBytes payload) :
    ∀ q ∈ samples16 payload n, -1 ≤ q ∧ q ≤ 1 := by
  intro q hq
  simp only [samples16, List.mem_map, List.mem_range] at hq
  obtain ⟨i, -, rfl⟩ := hq
  have hb := int16ofBits_bounds _ (u16le_lt payload h (2 * i))
  exact normalize16_bounds _ hb.1 hb.2

theorem samples32_bounds (payload : List Nat) (n : Nat) (h : isBytes payload) :
    ∀ q ∈ samples32 payload n, -1 ≤ q ∧ q ≤ 1 := by
  intro q hq
  simp only [samples32, List.mem_map, List.mem_range] at hq
  obtain ⟨i, -, rfl⟩ := hq
  have hb := int32ofBits_bounds _ (u32le_lt payload h (4 * i))
  exact normalize32_bounds _ hb.1 hb.2

theorem getD_bounds (pcm : List ℚ) (h : ∀ q ∈ pcm, -1 ≤ q ∧ q ≤ 1) (i : Nat) :
    -1 ≤ pcm.getD i 0 ∧ pcm.getD i 0 ≤ 1 := by
  by_cases hi : i < pcm.length
  · rw [List.getD_eq_getElem pcm 0 hi]
    exact h _ (List.getElem_mem hi)
  · rw [List.getD_eq_default pcm 0 (le_of_not_lt hi)]
    norm_num

theorem downmix_bounds (ch : Nat) (pcm : List ℚ)
    (h : ∀ q ∈ pcm, -1 ≤ q ∧ q ≤ 1) :
    ∀ q ∈ downmix ch pcm, -1 ≤ q ∧ q ≤ 1 := by
  intro q hq
  unfold downmix at hq
  split at hq
  · simp only [List.mem_map, List.mem_range] at hq
    obtain ⟨i, -, rfl⟩ := hq
    have ha := getD_bounds pcm h (2 * i)
    have hb := getD_bounds pcm h (2 * i + 1)
    constructor
    · rw [le_div_iff₀ (by norm_num : (0 : ℚ) < 2)]
      linarith
    · rw [div_le_one (by norm_num : (0 : ℚ) < 2)]
      linarith
  · exact h q hq

theorem isBytes_drop (bs : List Nat) (h : isBytes bs) (n : Nat) :
    isBytes (bs.drop n) := fun x hx => h x (List.mem_of_mem_drop hx)

/-! ## Downmix structure lemmas -/

theorem downmix_nil (ch : Nat) : downmix ch [] = [] := by
  unfold downmix
  split <;> simp

theorem monoFile_eval :
    read_wav (some monoFile) ⟨[], 0⟩ = .ok true ⟨[1/2, -1/2], 16000⟩ := by
  simp only [read_wav, decodePayload, monoFile, mkHeader, u16bytes, u32bytes]
  norm_num [riffOk, waveOk, u16le, u32le, bitsPerSample, dataSize, sampleRateField,
    numChannels, int32ofUInt, resize, samples16, normalize16, int16ofBits, downmix,
    List.range_succ]

theorem file8Bit_eval :
    read_wav (some file8Bit) ⟨[], 0⟩ =
      .err (.unsupportedBitDepth 8) true ⟨[0, 0, 0, 0], 16000⟩ := by
  have hrep : List.replicate 4 (0 : ℚ) = [0, 0, 0, 0] := rfl
  simp only [read_wav, decodePayload, file8Bit, mkHeader, u16bytes, u32bytes]
  norm_num [riffOk, waveOk, u16le, u32le, bitsPerSample, dataSize, sampleRateField,
    int32ofUInt, resize, hrep]

theorem file0Bit_eval :
    read_wav (some file0Bit) ⟨[], 0⟩ = .ub ⟨[], 16000⟩ := by
  simp only [read_wav, decodePayload, file0Bit, mkHeader, u16bytes, u32bytes]
  norm_num [riffOk, waveOk, u16le, u32le, bitsPerSample, sampleRateField, int32ofUInt]

theorem hugeRateFile_eval :
    read_wav (some hugeRateFile) ⟨[], 0⟩ = .ok true ⟨[], -2147483648⟩ := by
  simp only [read_wav, decodePayload, hugeRateFile, mkHeader, u16bytes, u32bytes]
  norm_num [riffOk, waveOk, u16le, u32le, bitsPerSample, dataSize, sampleRateField,
    numChannels, int32ofUInt, resize, samples16, downmix]

/-! ## The claims -/

/-- C2 as claimed is false at 32-bit: `static_cast<float>` rounds the
32-bit integer maximum 2147483647 up to 2147483648.0f, so the normalized
sample is exactly 1.0, not strictly less than 1.0; the 32-bit mono file
whose single sample is the maximum decodes successfully to the sample 1. -/
theorem spec_C2_cex :
    read_wav (some int32MaxFile) ⟨[], 0⟩ = .ok true ⟨[1], 16000⟩ ∧
    normalize32 2147483647 = 1 ∧ ¬ normalize32 2147483647 < 1 := by
  have hc : castF32 2147483647 = 2147483648 := by decide
  refine ⟨?_, ?_, ?_⟩
  · simp only [read_wav, decodePayload, int32MaxFile, mkHeader, u16bytes, u32bytes]
    norm_num [riffOk, waveOk, u16le, u32le, bitsPerSample, dataSize, sampleRateField,
      numChannels, int32ofUInt, resize, samples32, normalize32, int32ofBits, downmix,
      List.range_succ, hc]
  · norm_num [normalize32, hc]
  · norm_num [normalize32, hc]

/-- C2 (amended): every sample of a successfully decoded output lies in
the closed interval [-1, 1]; the 16-bit minimum maps to exactly -1 and the
16-bit maximum to strictly less than 1, and in the 32-bit branch the
float32 cast sends the minimum to exactly -1 but rounds the maximum up so
that it maps to exactly 1. -/
theorem spec_C2 :
    (∀ (bytes : List Nat) (st : OutState) (c : Bool) (st' : OutState),
      isBytes bytes → read_wav (some bytes) st = .ok c st' →
      ∀ q ∈ st'.pcm_data, -1 ≤ q ∧ q ≤ 1) ∧
    normalize16 (-32768) = -1 ∧ normalize16 32767 < 1 ∧
    normalize32 (-2147483648) = -1 ∧ normalize32 2147483647 = 1 := by
  have hcmin : castF32 (-2147483648) = -2147483648 := by decide
  have hcmax : castF32 2147483647 = 2147483648 := by decide
  refine ⟨?_, by norm_num [normalize16], by norm_num [normalize16],
    by norm_num [normalize32, hcmin], by norm_num [normalize32, hcmax]⟩
  intro bytes st c st' hB h q hq
  obtain ⟨-, -, -, -, hbits, -, rfl⟩ := read_wav_ok_inv bytes st c st' h
  refine downmix_bounds _ _ ?_ q hq
  have hp : isBytes (bytes.drop 44) := isBytes_drop bytes hB 44
  unfold interleaved
  split
  · exact samples16_bounds _ _ hp
  · exact samples32_bounds _ _ hp

theorem spec_C2_witness : (-1 : ℚ) ≤ 1/2 ∧ (1/2 : ℚ) ≤ 1 :=
  spec_C2.1 monoFile ⟨[], 0⟩ true ⟨[1/2, -1/2], 16000⟩ (by decide) monoFile_eval
    (1/2) (by simp)

/-- C3: a declared bit depth of 8 is rejected with the unsupported-bit-depth
failure carrying the value 8, as the claim states; but a declared bit depth
below 8 (such as 0) does not reach that rejection: line 62 divides
`data_size` by `bits_per_sample / 8 = 0` before the bit-depth check,
undefined behaviour in C++, contradicting the claimed error. -/
theorem spec_C3 :
    read_wav (some file8Bit) ⟨[], 0⟩ =
      .err (.unsupportedBitDepth 8) true ⟨[0, 0, 0, 0], 16000⟩ ∧
    read_wav (some file0Bit) ⟨[], 0⟩ = .ub ⟨[], 16000⟩ :=
  ⟨file8Bit_eval, file0Bit_eval⟩

/-- C4: a readable header with valid tags and a supported bit depth whose
payload holds fewer than `sample_count` samples of the declared width fails
with the truncated-payload error (and hence never yields a shortened
success result). -/
theorem spec_C4 (bytes : List Nat) (st : OutState)
    (hlen : 44 ≤ bytes.length) (hr : riffOk bytes) (hw : waveOk bytes)
    (hb : bitsPerSample bytes = 16 ∨ bitsPerSample bytes = 32)
    (hshort : (bytes.drop 44).length / (bitsPerSample bytes / 8) < numSamples bytes) :
    read_wav (some bytes) st = .err .truncatedPayload true
      ⟨resize st.pcm_data (numSamples bytes), int32ofUInt (sampleRateField bytes)⟩ := by
  rw [read_wav_goodTags bytes st (not_lt.mpr hlen) ⟨hr, hw⟩]
  cases hb with
  | inl h16 =>
    refine decodePayload_16_short bytes _ h16 ?_
    rw [h16] at hshort
    simpa using hshort
  | inr h32 =>
    refine decodePayload_32_short bytes _ h32 ?_
    rw [h32] at hshort
    simpa using hshort

theorem spec_C4_witness :
    read_wav (some truncatedFile) ⟨[], 0⟩ = .err .truncatedPayload true
      ⟨resize ([] : List ℚ) (numSamples truncatedFile),
        int32ofUInt (sampleRateField truncatedFile)⟩ :=
  spec_C4 truncatedFile ⟨[], 0⟩ (by decide) (by decide) (by decide)
    (Or.inl (by decide)) (by decide)

/-- C5: among files with a fully readable 44-byte header, the
invalid-format failure fires exactly when the first four bytes differ from
RIFF or bytes 8-11 differ from WAVE; once both tags match, the only
remaining failures are the sample-decoding ones (unsupported bit depth or
truncated payload) — no other header field is validated. -/
theorem spec_C5 (bytes : List Nat) (st : OutState) (hlen : 44 ≤ bytes.length) :
    ((∃ c st', read_wav (some bytes) st = .err .invalidFormat c st') ↔
      ¬ (riffOk bytes ∧ waveOk bytes)) ∧
    (∀ (e : DecodeErr) (c : Bool) (st' : OutState),
      riffOk bytes → waveOk bytes → read_wav (some bytes) st = .err e c st' →
      e = .unsupportedBitDepth (bitsPerSample bytes) ∨ e = .truncatedPayload) := by
  constructor
  · constructor
    · rintro ⟨c, st', h⟩ htag
      obtain ⟨-, hc⟩ := read_wav_err_inv bytes st _ c st' h
      rcases hc with ⟨h1, -, -⟩ | ⟨-, hno, -, -⟩ | ⟨-, hr, hw, -, he⟩
      · omega
      · exact hno htag
      · rcases he with ⟨he, -, -⟩ | ⟨he, -, -, -⟩ <;> simp at he
    · intro htag
      exact ⟨true, st, read_wav_badTags bytes st (not_lt.mpr hlen) htag⟩
  · intro e c st' hr hw h
    obtain ⟨-, hc⟩ := read_wav_err_inv bytes st e c st' h
    rcases hc with ⟨h1, -, -⟩ | ⟨-, hno, -, -⟩ | ⟨-, -, -, -, he⟩
    · omega
    · exact absurd ⟨hr, hw⟩ hno
    · rcases he with ⟨he, -, -⟩ | ⟨he, -, -, -⟩
      · exact Or.inr he
      · exact Or.inl he

theorem spec_C5_witness :
    ∃ c st', read_wav (some rifxFile) ⟨[], 0⟩ = .err .invalidFormat c st' :=
  (spec_C5 rifxFile ⟨[], 0⟩ (by decide)).1.mpr (by decide)

/-- C6 as claimed is false: on the unsupported-bit-depth failure for
`file8Bit` the caller's out-state holds a non-empty zero-filled sample
buffer and an assigned sample rate, so a failing invocation does not leave
the out-state untouched. -/
theorem spec_C6_cex :
    read_wav (some file8Bit) ⟨[], 0⟩ =
      .err (.unsupportedBitDepth 8) true ⟨[0, 0, 0, 0], 16000⟩ ∧
    ([(0 : ℚ), 0, 0, 0] ≠ []) ∧ ((16000 : Int) ≠ 0) :=
  ⟨file8Bit_eval, by decide, by decide⟩

/-- C6 (amended): failures before header-field interpretation (open,
truncated header, invalid format) leave the caller's out-state untouched,
and every later failure (unsupported bit depth, truncated payload) leaves
exactly the assigned sample rate and the resized zero-filled buffer in the
out-state; success is signalled only by the true result. -/
theorem spec_C6 :
    (∀ st, read_wav none st = .err .openError false st) ∧
    (∀ (bytes : List Nat) (st : OutState), bytes.length < 44 →
      read_wav (some bytes) st = .err .truncatedHeader true st) ∧
    (∀ (bytes : List Nat) (st : OutState), 44 ≤ bytes.length →
      ¬ (riffOk bytes ∧ waveOk bytes) →
      read_wav (some bytes) st = .err .invalidFormat true st) ∧
    (∀ (bytes : List Nat) (st : OutState) (e : DecodeErr) (c : Bool) (st' : OutState),
      44 ≤ bytes.length →
      read_wav (some bytes) st = .err e c st' → riffOk bytes → waveOk bytes →
      st' = ⟨resize st.pcm_data (numSamples bytes),
        int32ofUInt (sampleRateField bytes)⟩) := by
  refine ⟨read_wav_none, read_wav_shortHeader,
    fun bytes st hlen htag => read_wav_badTags bytes st (not_lt.mpr hlen) htag,
    ?_⟩
  intro bytes st e c st' hlen h hr hw
  obtain ⟨-, hc⟩ := read_wav_err_inv bytes st e c st' h
  rcases hc with ⟨h1, -, -⟩ | ⟨-, hno, -, -⟩ | ⟨-, -, -, hst, -⟩
  · omega
  · exact absurd ⟨hr, hw⟩ hno
  · exact hst

theorem spec_C6_witness :
    (⟨[0, 0, 0, 0], 16000⟩ : OutState) =
      ⟨resize ([] : List ℚ) (numSamples file8Bit),
        int32ofUInt (sampleRateField file8Bit)⟩ :=
  spec_C6.2.2.2 file8Bit ⟨[], 0⟩ (.unsupportedBitDepth 8) true
    ⟨[0, 0, 0, 0], 16000⟩ (by decide) file8Bit_eval (by decide) (by decide)

/-- C7: a file shorter than the 44-byte header fails with the
truncated-header failure, leaving the out-state untouched, and once 44
bytes are available the truncated-header failure can never fire. -/
theorem spec_C7 :
    (∀ (bytes : List Nat) (st : OutState), bytes.length < 44 →
      read_wav (some bytes) st = .err .truncatedHeader true st) ∧
    (∀ (bytes : List Nat) (st : OutState) (e : DecodeErr) (c : Bool) (st' : OutState),
      44 ≤ bytes.length → read_wav (some bytes) st = .err e c st' →
      e ≠ .truncatedHeader) := by
  refine ⟨read_wav_shortHeader, ?_⟩
  intro bytes st e c st' hlen h
  obtain ⟨-, hc⟩ := read_wav_err_inv bytes st e c st' h
  rcases hc with ⟨h1, -, -⟩ | ⟨-, -, he, -⟩ | ⟨-, -, -, -, he⟩
  · omega
  · rw [he]; simp
  · rcases he with ⟨he, -, -⟩ | ⟨he, -, -, -⟩ <;> rw [he] <;> simp

theorem spec_C7_witness :
    read_wav (some [82, 73, 70, 70]) ⟨[], 0⟩ = .err .truncatedHeader true ⟨[], 0⟩ :=
  spec_C7.1 [82, 73, 70, 70] ⟨[], 0⟩ (by decide)

/-- C8: a file whose header opens and validates, declares a supported bit
depth and `subchunk2_size = 0`, decodes successfully to the empty sample
sequence with its sample rate, for channel count 1 as well as 2. -/
theorem spec_C8 (bytes : List Nat) (st : OutState)
    (hlen : 44 ≤ bytes.length) (hr : riffOk bytes) (hw : waveOk bytes)
    (hb : bitsPerSample bytes = 16 ∨ bitsPerSample bytes = 32)
    (hch : numChannels bytes = 1 ∨ numChannels bytes = 2)
    (hd : dataSize bytes = 0) :
    read_wav (some bytes) st = .ok true ⟨[], int32ofUInt (sampleRateField bytes)⟩ := by
  have hn : numSamples bytes = 0 := by
    simp [numSamples, hd]
  rw [read_wav_goodTags bytes st (not_lt.mpr hlen) ⟨hr, hw⟩]
  cases hb with
  | inl h16 =>
    rw [decodePayload_16_ok bytes _ h16 (by rw [hn]; omega)]
    rw [hn]
    simp [samples16, downmix_nil]
  | inr h32 =>
    rw [decodePayload_32_ok bytes _ h32 (by rw [hn]; omega)]
    rw [hn]
    simp [samples32, downmix_nil]

theorem spec_C8_witness :
    read_wav (some emptyPayloadFile) ⟨[], 0⟩ = .ok true ⟨[], 16000⟩ := by
  have h := spec_C8 emptyPayloadFile ⟨[], 0⟩ (by decide) (by decide) (by decide)
    (Or.inl (by decide)) (Or.inl (by decide)) (by decide)
  rw [h]
  decide

/-- C9: whenever `read_wav` returns after a successful open — on the
success result and on every failure result — the file handle has been
closed before the return; no returning branch leaks it. -/
theorem spec_C9 (bytes : List Nat) (st : OutState) :
    (∀ (e : DecodeErr) (c : Bool) (st' : OutState),
      read_wav (some bytes) st = .err e c st' → c = true) ∧
    (∀ (c : Bool) (st' : OutState),
      read_wav (some bytes) st = .ok c st' → c = true) := by
  constructor
  · intro e c st' h
    exact (read_wav_err_inv bytes st e c st' h).1
  · intro c st' h
    exact (read_wav_ok_inv bytes st c st' h).2.2.2.1

theorem spec_C9_witness :
    read_wav (some rifxFile) ⟨[], 0⟩ = .err .invalidFormat true ⟨[], 0⟩ ∧
    (true : Bool) = true :=
  ⟨by decide, (spec_C9 rifxFile ⟨[], 0⟩).1 .invalidFormat true ⟨[], 0⟩ (by decide)⟩

/-- C10 as claimed is false: a successfully decoded file whose sample-rate
field holds 2^31 comes back with sample rate -2^31, because the out
parameter is a signed 32-bit `int`, not an unsigned value. -/
theorem spec_C10_cex :
    read_wav (some hugeRateFile) ⟨[], 0⟩ = .ok true ⟨[], -2147483648⟩ ∧
    sampleRateField hugeRateFile = 2147483648 ∧
    ((-2147483648 : Int) ≠ 2147483648) :=
  ⟨hugeRateFile_eval, by decide, by decide⟩

/-- C10 (amended): on every successful decode the returned sample rate is
the little-endian sample-rate field converted to a signed 32-bit `int`:
faithful for field values below 2^31, wrapped by -2^32 for larger values. -/
theorem spec_C10 (bytes : List Nat) (st : OutState) (c : Bool) (st' : OutState)
    (h : read_wav (some bytes) st = .ok c st') :
    st'.sample_rate = int32ofUInt (sampleRateField bytes) ∧
    (sampleRateField bytes < 2147483648 →
      st'.sample_rate = (sampleRateField bytes : Int)) ∧
    (2147483648 ≤ sampleRateField bytes →
      st'.sample_rate = (sampleRateField bytes : Int) - 4294967296) := by
  obtain ⟨-, -, -, -, -, -, rfl⟩ := read_wav_ok_inv bytes st c st' h
  refine ⟨rfl, ?_, ?_⟩
  · intro h1
    simp [int32ofUInt, h1]
  · intro h1
    simp [int32ofUInt, not_lt.mpr h1]

theorem spec_C10_witness :
    read_wav (some monoFile) ⟨[], 0⟩ = .ok true ⟨[1/2, -1/2], 16000⟩ ∧
    (16000 : Int) = int32ofUInt (sampleRateField monoFile) :=
  ⟨monoFile_eval, (spec_C10 monoFile ⟨[], 0⟩ true ⟨[1/2, -1/2], 16000⟩ monoFile_eval).1⟩

end HyperWhisper
